import Mathlib

/-!
# Verification of the knops GitOps reconciliation agent

Shallow embedding of the reconciliation engine (`applyFile`, `deployCommit`)
and the serialized deploy-job queue worker. Go maps are modelled as
association lists with Go's zero-value lookup (missing key yields the empty
string); Go `error` results are modelled with `Except`; the Kubernetes
object store is an oracle of get/create/update result functions, and every
call the engine issues to it is recorded in an explicit trace.
-/

namespace Knops

/-- The agent's identity, Go constant `operatorName = "knops"`. -/
def operatorName : String := "knops"

/-- Ownership label key, Go constant `managedByLabel`. -/
def managedByLabel : String := "app.kubernetes.io/managed-by"

/-- Commit-identifier annotation key (the Go constant with value
`"meta.knops/commit-id"`). -/
def commitIdAnno : String := "meta.knops/commit-id"

/-- File-identity annotation key (the Go constant with value
`"meta.knops/file-id"`). -/
def fileIdAnno : String := "meta.knops/file-id"

/-- Go map lookup `m[k]`: the zero value `""` when the key is absent. -/
def lookupD (m : List (String × String)) (k : String) : String :=
  (List.lookup k m).getD ""

/-- Go map assignment `m[k] = v`. -/
def setKV (m : List (String × String)) (k v : String) : List (String × String) :=
  (k, v) :: m.filter (fun p => p.1 != k)

/-- Go `maps.Copy(dst, src)`: every key of `src` is written into `dst`. -/
def copyAll (dst src : List (String × String)) : List (String × String) :=
  src.foldl (fun d p => setKV d p.1 p.2) dst

/-- Group/version/kind descriptor returned by the manifest decoder. -/
structure GVK where
  group : String
  version : String
  kind : String
deriving DecidableEq

/-- The metadata of an unstructured Kubernetes object that the engine
reads or writes: name, namespace, labels, annotations, resourceVersion. -/
structure Unstructured where
  name : String
  ns : String
  labels : List (String × String)
  annotations : List (String × String)
  resourceVersion : String
deriving DecidableEq

/-- The repository policy file `.nops.yaml`: target namespace and labels. -/
structure DotNops where
  ns : String
  labels : List (String × String)
deriving DecidableEq

deriving instance DecidableEq for Except

/-- A manifest file of the commit tree: path (`f.Name`), content id
(`f.ID().String()`), and the result of `loadUnstructuredFromFile`
(an external decoder, modelled as data carried by the file). -/
structure File where
  name : String
  id : String
  decoded : Except String (Unstructured × GVK)
deriving DecidableEq

/-- An error returned by the object store; `isNotFound` models
`errors.IsNotFound`. -/
structure StoreErr where
  isNotFound : Bool
  msg : String
deriving DecidableEq

/-- One call issued to the object store. -/
inductive StoreCall where
  | get (gvk : GVK) (ns : String) (name : String)
  | create (obj : Unstructured)
  | update (obj : Unstructured)
deriving DecidableEq

/-- Whether a store call is a mutation (create or update), not a read. -/
def isMutation : StoreCall → Bool
  | .get _ _ _ => false
  | .create _ => true
  | .update _ => true

/-- The mutation calls of a trace. -/
def mutationCalls (cs : List StoreCall) : List StoreCall :=
  cs.filter isMutation

/-- The object store oracle: what `kc.get` / `kc.create` / `kc.update`
return. -/
structure KubeClient where
  getRes : GVK → String → String → Except StoreErr Unstructured
  createRes : Unstructured → Except StoreErr Unstructured
  updateRes : Unstructured → Except StoreErr Unstructured

/-- The error of one `applyFile` run. The Go code returns plain `error`
values; the constructors record which `return err` site produced it. -/
inductive ApplyErr where
  | decodeErr (msg : String)
  | unsupportedKind (kind : String)
  | namespaceMismatch (ns : String)
  | storeErr (e : StoreErr)
deriving DecidableEq

/-- Operator configuration fields used by the engine (the Go `Operator`
struct without its client handles; the mutable `cacheIds` map is threaded
explicitly through `deployCommit`). -/
structure Operator where
  kinds : List String
  namespaces : List String
  allowCreate : Bool
  onlyManaged : Bool
deriving DecidableEq

/-- The metadata mutation `applyFile` performs on the desired document
before create/update (source lines 76-90): merge policy labels in
(policy wins), set the ownership label to `operatorName`, set the
commit-id and file-id annotation keys. -/
def mutateDesired (dotNops : DotNops) (commitId fileId : String)
    (desired : Unstructured) : Unstructured :=
  { desired with
    labels := setKV (copyAll desired.labels dotNops.labels) managedByLabel operatorName
    annotations := setKV (setKV desired.annotations commitIdAnno commitId) fileIdAnno fileId }

/-- The body of `Operator.applyFile` after a successful decode (source
lines 48-105): kind allow-list check, namespace check, fetch the live
object, ownership and idempotency skips, metadata mutation, then update
(carrying the live resourceVersion) or create. Returns the Go function's
result together with the trace of store calls issued. -/
def applyFileDecoded (o : Operator) (kc : KubeClient) (dotNops : DotNops)
    (commitId fileId : String) (desired : Unstructured) (gvk : GVK) :
    Except ApplyErr Unit × List StoreCall :=
  if o.kinds.contains gvk.kind = false then
    (.error (.unsupportedKind gvk.kind), [])
  else if desired.ns ≠ dotNops.ns then
    (.error (.namespaceMismatch desired.ns), [])
  else
    match kc.getRes gvk dotNops.ns desired.name with
    | .error e =>
      if e.isNotFound = false ∨ o.allowCreate = false then
        (.error (.storeErr e), [.get gvk dotNops.ns desired.name])
      else
        match kc.createRes (mutateDesired dotNops commitId fileId desired) with
        | .error ce =>
          (.error (.storeErr ce),
           [.get gvk dotNops.ns desired.name,
            .create (mutateDesired dotNops commitId fileId desired)])
        | .ok _ =>
          (.ok (),
           [.get gvk dotNops.ns desired.name,
            .create (mutateDesired dotNops commitId fileId desired)])
    | .ok actual =>
      if o.onlyManaged = true ∧ lookupD actual.labels managedByLabel ≠ operatorName then
        (.ok (), [.get gvk dotNops.ns desired.name])
      else if lookupD actual.annotations fileIdAnno = fileId then
        (.ok (), [.get gvk dotNops.ns desired.name])
      else
        match kc.updateRes { mutateDesired dotNops commitId fileId desired with
                             resourceVersion := actual.resourceVersion } with
        | .error ue =>
          (.error (.storeErr ue),
           [.get gvk dotNops.ns desired.name,
            .update { mutateDesired dotNops commitId fileId desired with
                      resourceVersion := actual.resourceVersion }])
        | .ok _ =>
          (.ok (),
           [.get gvk dotNops.ns desired.name,
            .update { mutateDesired dotNops commitId fileId desired with
                      resourceVersion := actual.resourceVersion }])

/-- `Operator.applyFile` (source lines 42-106): decode the file, then run
the checked apply on the decoded document. -/
def applyFile (o : Operator) (kc : KubeClient) (dotNops : DotNops)
    (commitId : String) (file : File) : Except ApplyErr Unit × List StoreCall :=
  match file.decoded with
  | .error e => (.error (.decodeErr e), [])
  | .ok (desired, gvk) => applyFileDecoded o kc dotNops commitId file.id desired gvk

/-- Go `strings.HasSuffix`, on the character sequences of the strings. -/
def strEndsWith (s post : String) : Bool :=
  post.toList.isSuffixOf s.toList

/-- Go `strings.HasPrefix`, on the character sequences of the strings. -/
def strStartsWith (s pre : String) : Bool :=
  pre.toList.isPrefixOf s.toList

/-- Go `path.Base`. -/
def pathBase (p : String) : String :=
  if p = "" then "."
  else
    let cs := p.toList.reverse.dropWhile (fun c => c = '/')
    if cs = [] then "/"
    else String.mk (cs.takeWhile (fun c => c != '/')).reverse

/-- The file filter of the pass loop (source line 126): path ends in
`.yaml` and its base name is not dot-prefixed. -/
def selectFile (f : File) : Bool :=
  strEndsWith f.name ".yaml" && !strStartsWith (pathBase f.name) "."

/-- The commit tree: the result of `loadDotNopsFromTree` and the files
enumerated by `tree.Files().ForEach`, both external collaborators. -/
structure Tree where
  dotNops : Except String DotNops
  files : List File

/-- A commit: its id and the result of `commit.Tree()`. -/
structure Commit where
  id : String
  tree : Except String Tree

/-- A pass-level (fatal-for-pass) error of `deployCommit`. -/
inductive PassErr where
  | treeErr (msg : String)
  | loadDotNops (msg : String)
  | restrictedNamespace (ns : String)
deriving DecidableEq

/-- What happened to one file during a pass. -/
inductive FileEvent where
  | filteredOut (name : String)
  | cachedSkip (name : String)
  | applied (name : String) (fileId : String) (calls : List StoreCall)
  | failed (name : String) (e : ApplyErr) (calls : List StoreCall)
deriving DecidableEq

/-- The store calls a file event caused. -/
def eventCalls : FileEvent → List StoreCall
  | .filteredOut _ => []
  | .cachedSkip _ => []
  | .applied _ _ calls => calls
  | .failed _ _ calls => calls

/-- State threaded through one pass: the `cacheIds` map (`none` when the
cache feature is off, as when `conf.Operator.CacheFileId` is false) and
the per-file event log. -/
structure PassState where
  cache : Option (List (String × String))
  events : List FileEvent
deriving DecidableEq

/-- The body of the `tree.Files().ForEach` callback (source lines
125-151): filter, cache check, `applyFile`, cache update on success.
The callback always returns nil to Go's ForEach: per-file errors are
recorded and swallowed. -/
def deployFileStep (o : Operator) (kc : KubeClient) (dotNops : DotNops)
    (commitId : String) (s : PassState) (f : File) : PassState :=
  if selectFile f = false then
    { s with events := s.events ++ [.filteredOut f.name] }
  else
    match s.cache with
    | some c =>
      if lookupD c f.name = f.id then
        { s with events := s.events ++ [.cachedSkip f.name] }
      else
        match applyFile o kc dotNops commitId f with
        | (.error e, calls) => { s with events := s.events ++ [.failed f.name e calls] }
        | (.ok _, calls) =>
          { cache := some (setKV c f.name f.id)
            events := s.events ++ [.applied f.name f.id calls] }
    | none =>
      match applyFile o kc dotNops commitId f with
      | (.error e, calls) => { s with events := s.events ++ [.failed f.name e calls] }
      | (.ok _, calls) => { s with events := s.events ++ [.applied f.name f.id calls] }

/-- `Operator.deployCommit`: load the tree and the `.nops.yaml` policy,
enforce the namespace allow-list, then walk the files. The ForEach
callback never returns an error, so once the pass-level checks succeed
the pass returns success. `cache0` is the operator's `cacheIds` field at
entry; the final state carries the updated map. -/
def deployCommit (o : Operator) (kc : KubeClient)
    (cache0 : Option (List (String × String))) (commit : Commit) :
    Except PassErr Unit × PassState :=
  match commit.tree with
  | .error e => (.error (.treeErr e), ⟨cache0, []⟩)
  | .ok tree =>
    match tree.dotNops with
    | .error e => (.error (.loadDotNops e), ⟨cache0, []⟩)
    | .ok dotNops =>
      if o.namespaces ≠ [] ∧ o.namespaces.contains dotNops.ns = false then
        (.error (.restrictedNamespace dotNops.ns), ⟨cache0, []⟩)
      else
        (.ok (), tree.files.foldl (deployFileStep o kc dotNops commit.id) ⟨cache0, []⟩)

/-! ## The deploy-job queue worker (part_001, lines 104-128)

A context is modelled by the absolute time at which it is cancelled
(`none` for `context.Background()`, which is never cancelled). The
worker's ceiling is `deployTimeout = 3 * time.Minute`; the working
context is `context.WithTimeout(job.ctx, deployTimeout)` taken at
dequeue time, and a context derived with `WithTimeout` is done as soon
as its parent is done or the ceiling elapses. -/

/-- `deployTimeout = 3 * time.Minute`, in seconds. -/
def deployTimeout : Nat := 180

/-- A `DeployJob` as the worker sees it: when (if ever) the submitter's
context is cancelled, whether a result channel `res` was supplied, and
how long the pass would run unconstrained. -/
structure Job where
  cancelAt : Option Nat
  hasRes : Bool
  dur : Nat
deriving DecidableEq

/-- Whether a context cancelled at `cancelAt` is done at time `t`
(`job.ctx.Done()` has fired). -/
def ctxDoneAt (cancelAt : Option Nat) (t : Nat) : Bool :=
  match cancelAt with
  | some c => decide (c ≤ t)
  | none => false

/-- Whether the working context `context.WithTimeout(job.ctx,
deployTimeout)` created at dequeue time `t0` is done at time `t`: it
inherits cancellation of the job context and adds the ceiling. -/
def workingCtxDone (job : Job) (t0 t : Nat) : Bool :=
  ctxDoneAt job.cancelAt t || decide (t0 + deployTimeout ≤ t)

/-- What the worker did with one dequeued job. -/
inductive StepOutcome where
  | discarded
  | ran (delivered : Bool)
deriving DecidableEq

/-- One iteration of the worker loop at dequeue time `t0`: the select on
`job.ctx.Done()` discards an already-cancelled job, otherwise the pass
runs and the result is sent iff `job.res != nil`. -/
def workerStep (job : Job) (t0 : Nat) : StepOutcome :=
  if ctxDoneAt job.cancelAt t0 then .discarded else .ran job.hasRes

/-- One executed reconciliation pass: which job (by queue position) and
its execution interval. -/
structure PassExec where
  jobIndex : Nat
  start : Nat
  finish : Nat
deriving DecidableEq

/-- The single worker goroutine consuming the FIFO `deployJobs` channel:
jobs are dequeued one at a time in submission order; a job cancelled by
dequeue time is discarded, otherwise its pass occupies the interval
from the dequeue instant to the pass's end, and only then is the next
job dequeued. -/
def runWorker (t : Nat) (i : Nat) : List Job → List PassExec
  | [] => []
  | job :: rest =>
    if ctxDoneAt job.cancelAt t then runWorker t (i + 1) rest
    else ⟨i, t, t + job.dur⟩ :: runWorker (t + job.dur) (i + 1) rest

/-- The job an asynchronous trigger enqueues (part_001 line 138):
`DeployJob{ctx: context.Background()}` — no cancellation, no result
channel. -/
def asyncJob (dur : Nat) : Job :=
  { cancelAt := none, hasRes := false, dur := dur }

/-! ## Concrete fixtures (used to witness the theorems) -/

def gvkW : GVK := { group := "apps", version := "v1", kind := "Deployment" }

def gvkSecretW : GVK := { group := "", version := "v1", kind := "Secret" }

def desiredW : Unstructured :=
  { name := "app1", ns := "prod", labels := [("tier", "web")],
    annotations := [("note", "n1")], resourceVersion := "" }

def dnW : DotNops := { ns := "prod", labels := [("team", "alpha")] }

def fileW : File := { name := "app1.yaml", id := "fid1", decoded := .ok (desiredW, gvkW) }

def badKindFileW : File :=
  { name := "b.yaml", id := "fidb", decoded := .ok (desiredW, gvkSecretW) }

def opW : Operator :=
  { kinds := ["Deployment"], namespaces := [], allowCreate := true, onlyManaged := true }

def opNoCreateW : Operator :=
  { kinds := ["Deployment"], namespaces := [], allowCreate := false, onlyManaged := false }

def actualManagedW : Unstructured :=
  { name := "app1", ns := "prod", labels := [(managedByLabel, "knops")],
    annotations := [(fileIdAnno, "fid1")], resourceVersion := "rv7" }

def actualForeignW : Unstructured :=
  { name := "app1", ns := "prod", labels := [(managedByLabel, "helm")],
    annotations := [], resourceVersion := "rv3" }

def actualStaleW : Unstructured :=
  { name := "app1", ns := "prod", labels := [(managedByLabel, "knops")],
    annotations := [(fileIdAnno, "old")], resourceVersion := "rv5" }

def kcSameW : KubeClient :=
  { getRes := fun _ _ _ => .ok actualManagedW
    createRes := fun obj => .ok obj
    updateRes := fun obj => .ok obj }

def kcForeignW : KubeClient :=
  { getRes := fun _ _ _ => .ok actualForeignW
    createRes := fun obj => .ok obj
    updateRes := fun obj => .ok obj }

def kcStaleW : KubeClient :=
  { getRes := fun _ _ _ => .ok actualStaleW
    createRes := fun obj => .ok obj
    updateRes := fun obj => .ok obj }

def kcAbsentW : KubeClient :=
  { getRes := fun _ _ _ => .error { isNotFound := true, msg := "nf" }
    createRes := fun obj => .ok obj
    updateRes := fun obj => .ok obj }

def objW : Unstructured := mutateDesired dnW "c7" "fid1" desiredW

def treeW : Tree := { dotNops := .ok dnW, files := [fileW, badKindFileW] }

def commitW : Commit := { id := "c5", tree := .ok treeW }

def badCommitW : Commit := { id := "cbad", tree := .error "tree unreadable" }

/-! ## Lookup lemmas for the Go-map model -/

theorem lookup_filter_ne (m : List (String × String)) (k k' : String) (h : k' ≠ k) :
    List.lookup k' (m.filter (fun p => p.1 != k)) = List.lookup k' m := by
  induction m with
  | nil => rfl
  | cons p t ih =>
    by_cases hp : p.1 = k
    · have : (p.1 != k) = false := by simp [hp]
      simp [List.filter_cons, this, List.lookup, ih]
      have : (k' == p.1) = false := by simp [hp, h]
      simp [this]
    · have : (p.1 != k) = true := by simp [hp]
      simp [List.filter_cons, this, List.lookup, ih]

theorem lookupD_setKV_self (m : List (String × String)) (k v : String) :
    lookupD (setKV m k v) k = v := by
  simp [lookupD, setKV, List.lookup]

theorem lookupD_setKV_ne (m : List (String × String)) (k v k' : String) (h : k' ≠ k) :
    lookupD (setKV m k v) k' = lookupD m k' := by
  have hb : (k' == k) = false := by simp [h]
  simp [lookupD, setKV, List.lookup, hb, lookup_filter_ne m k k' h]

theorem lookupD_copyAll_of_not_mem (dst src : List (String × String)) (k : String)
    (h : k ∉ src.map Prod.fst) : lookupD (copyAll dst src) k = lookupD dst k := by
  induction src generalizing dst with
  | nil => rfl
  | cons p t ih =>
    simp only [List.map_cons, List.mem_cons, not_or] at h
    simp only [copyAll, List.foldl_cons]
    rw [show (t.foldl (fun d p => setKV d p.1 p.2) (setKV dst p.1 p.2)) =
          copyAll (setKV dst p.1 p.2) t from rfl]
    rw [ih (setKV dst p.1 p.2) h.2, lookupD_setKV_ne _ _ _ _ h.1]

theorem lookupD_copyAll_of_mem (dst src : List (String × String)) (k v : String)
    (hnd : (src.map Prod.fst).Nodup) (h : (k, v) ∈ src) :
    lookupD (copyAll dst src) k = v := by
  induction src generalizing dst with
  | nil => cases h
  | cons p t ih =>
    simp only [List.map_cons, List.nodup_cons] at hnd
    simp only [copyAll, List.foldl_cons]
    rw [show (t.foldl (fun d p => setKV d p.1 p.2) (setKV dst p.1 p.2)) =
          copyAll (setKV dst p.1 p.2) t from rfl]
    rcases List.mem_cons.mp h with h1 | h2
    · subst h1
      rw [lookupD_copyAll_of_not_mem _ _ _ hnd.1]
      exact lookupD_setKV_self dst k v
    · exact ih (setKV dst p.1 p.2) hnd.2 h2

/-! ## Properties of the metadata mutation -/

theorem mutateDesired_managedBy (dn : DotNops) (cid fid : String) (d : Unstructured) :
    lookupD (mutateDesired dn cid fid d).labels managedByLabel = operatorName := by
  simp [mutateDesired, lookupD_setKV_self]

theorem mutateDesired_policyLabel (dn : DotNops) (cid fid : String) (d : Unstructured)
    (k v : String) (hnd : (dn.labels.map Prod.fst).Nodup) (hmem : (k, v) ∈ dn.labels)
    (hk : k ≠ managedByLabel) :
    lookupD (mutateDesired dn cid fid d).labels k = v := by
  simp only [mutateDesired]
  rw [lookupD_setKV_ne _ _ _ _ hk]
  exact lookupD_copyAll_of_mem _ _ _ _ hnd hmem

theorem mutateDesired_otherLabel (dn : DotNops) (cid fid : String) (d : Unstructured)
    (k : String) (hk : k ≠ managedByLabel) (h : k ∉ dn.labels.map Prod.fst) :
    lookupD (mutateDesired dn cid fid d).labels k = lookupD d.labels k := by
  simp only [mutateDesired]
  rw [lookupD_setKV_ne _ _ _ _ hk]
  exact lookupD_copyAll_of_not_mem _ _ _ h

theorem mutateDesired_commitAnno (dn : DotNops) (cid fid : String) (d : Unstructured) :
    lookupD (mutateDesired dn cid fid d).annotations commitIdAnno = cid := by
  simp only [mutateDesired]
  rw [lookupD_setKV_ne _ _ _ _ (by decide : commitIdAnno ≠ fileIdAnno)]
  exact lookupD_setKV_self _ _ _

theorem mutateDesired_fileAnno (dn : DotNops) (cid fid : String) (d : Unstructured) :
    lookupD (mutateDesired dn cid fid d).annotations fileIdAnno = fid := by
  simp [mutateDesired, lookupD_setKV_self]

theorem mutateDesired_otherAnno (dn : DotNops) (cid fid : String) (d : Unstructured)
    (k : String) (h1 : k ≠ commitIdAnno) (h2 : k ≠ fileIdAnno) :
    lookupD (mutateDesired dn cid fid d).annotations k = lookupD d.annotations k := by
  simp only [mutateDesired]
  rw [lookupD_setKV_ne _ _ _ _ h2, lookupD_setKV_ne _ _ _ _ h1]

theorem mutateDesired_name (dn : DotNops) (cid fid : String) (d : Unstructured) :
    (mutateDesired dn cid fid d).name = d.name ∧ (mutateDesired dn cid fid d).ns = d.ns :=
  ⟨rfl, rfl⟩

/-! ## General facts about `applyFile`'s store trace -/

theorem applyFileDecoded_mutation_le_one (o : Operator) (kc : KubeClient) (dotNops : DotNops)
    (commitId fileId : String) (desired : Unstructured) (gvk : GVK) :
    (mutationCalls (applyFileDecoded o kc dotNops commitId fileId desired gvk).2).length ≤ 1 := by
  unfold applyFileDecoded
  split
  · simp [mutationCalls]
  · split
    · simp [mutationCalls]
    · split
      · split
        · simp [mutationCalls, isMutation, List.filter]
        · split <;> simp [mutationCalls, isMutation, List.filter]
      · split
        · simp [mutationCalls, isMutation, List.filter]
        · split
          · simp [mutationCalls, isMutation, List.filter]
          · split <;> simp [mutationCalls, isMutation, List.filter]

theorem applyFile_mutation_le_one (o : Operator) (kc : KubeClient) (dotNops : DotNops)
    (commitId : String) (file : File) :
    (mutationCalls (applyFile o kc dotNops commitId file).2).length ≤ 1 := by
  unfold applyFile
  split
  · simp [mutationCalls]
  · exact applyFileDecoded_mutation_le_one ..

theorem applyFileDecoded_mutation_payload (o : Operator) (kc : KubeClient) (dotNops : DotNops)
    (commitId fileId : String) (desired : Unstructured) (gvk : GVK) :
    ∀ c ∈ (applyFileDecoded o kc dotNops commitId fileId desired gvk).2, isMutation c = true →
      c = .create (mutateDesired dotNops commitId fileId desired) ∨
      ∃ rv, c = .update { mutateDesired dotNops commitId fileId desired with
                          resourceVersion := rv } := by
  unfold applyFileDecoded
  split
  · simp
  · split
    · simp
    · split
      · split
        · simp [isMutation]
        · split <;>
          · intro c hc _
            simp only [List.mem_cons] at hc
            rcases hc with h | h | h
            · subst h; simp [isMutation] at *
            · subst h; left; rfl
            · simp at h
      · split
        · simp [isMutation]
        · split
          · simp [isMutation]
          · split <;>
            · intro c hc _
              simp only [List.mem_cons] at hc
              rcases hc with h | h | h
              · subst h; simp [isMutation] at *
              · subst h; right; exact ⟨_, rfl⟩
              · simp at h

theorem applyFile_mutation_payload (o : Operator) (kc : KubeClient) (dotNops : DotNops)
    (commitId : String) (file : File) (desired : Unstructured) (gvk : GVK)
    (hdec : file.decoded = .ok (desired, gvk)) :
    ∀ c ∈ (applyFile o kc dotNops commitId file).2, isMutation c = true →
      c = .create (mutateDesired dotNops commitId file.id desired) ∨
      ∃ rv, c = .update { mutateDesired dotNops commitId file.id desired with
                          resourceVersion := rv } := by
  unfold applyFile
  rw [hdec]
  intro c hc hm
  exact applyFileDecoded_mutation_payload o kc dotNops commitId file.id desired gvk c hc hm

theorem applyFile_decode_ok (o : Operator) (kc : KubeClient) (dotNops : DotNops)
    (commitId : String) (file : File) (desired : Unstructured) (gvk : GVK)
    (hdec : file.decoded = .ok (desired, gvk)) :
    applyFile o kc dotNops commitId file =
      applyFileDecoded o kc dotNops commitId file.id desired gvk := by
  unfold applyFile
  rw [hdec]

/-! ## Claim theorems about `applyFile` -/

/-- C6: `applyFile` performs its checks in strict order with the first
failing check short-circuiting: a decode failure fails only this file with
a decode error; then a kind outside the allow-list fails with the
unsupported-kind error; then a namespace differing from the policy
namespace fails with the namespace-mismatch error. In each failing case
the store-call trace is empty, and the unsupported-kind result holds for
every policy namespace: a file of an unlisted kind is never compared
against the namespace and never reaches the object store. -/
theorem applyFile_strict_check_order (o : Operator) (kc : KubeClient) (dotNops : DotNops)
    (commitId : String) (file : File) :
    (∀ e, file.decoded = .error e →
       applyFile o kc dotNops commitId file = (.error (.decodeErr e), [])) ∧
    (∀ desired gvk, file.decoded = .ok (desired, gvk) →
       o.kinds.contains gvk.kind = false →
       applyFile o kc dotNops commitId file = (.error (.unsupportedKind gvk.kind), [])) ∧
    (∀ desired gvk, file.decoded = .ok (desired, gvk) →
       o.kinds.contains gvk.kind = true → desired.ns ≠ dotNops.ns →
       applyFile o kc dotNops commitId file = (.error (.namespaceMismatch desired.ns), [])) := by
  refine ⟨?_, ?_, ?_⟩
  · intro e he
    unfold applyFile
    rw [he]
  · intro d g he hk
    have hkm : g.kind ∉ o.kinds := by simpa using hk
    rw [applyFile_decode_ok o kc dotNops commitId file d g he]
    unfold applyFileDecoded
    simp [hk, hkm]
  · intro d g he hk hns
    have hkm : g.kind ∈ o.kinds := by simpa using hk
    rw [applyFile_decode_ok o kc dotNops commitId file d g he]
    unfold applyFileDecoded
    simp [hk, hkm, hns]

/-- C3: when only-managed mode is enabled and the fetched live object's
ownership label does not equal this agent's identity ("knops"),
`applyFile` returns success with only the get call in its trace — a
silent skip with no create or update, regardless of content. -/
theorem applyFile_ownership_isolation (o : Operator) (kc : KubeClient) (dotNops : DotNops)
    (commitId : String) (file : File) (desired : Unstructured) (gvk : GVK)
    (actual : Unstructured)
    (hdec : file.decoded = .ok (desired, gvk))
    (hkind : o.kinds.contains gvk.kind = true)
    (hns : desired.ns = dotNops.ns)
    (honly : o.onlyManaged = true)
    (hget : kc.getRes gvk dotNops.ns desired.name = .ok actual)
    (hlbl : lookupD actual.labels managedByLabel ≠ operatorName) :
    applyFile o kc dotNops commitId file =
      (.ok (), [.get gvk dotNops.ns desired.name]) := by
  have hkm : gvk.kind ∈ o.kinds := by simpa using hkind
  rw [applyFile_decode_ok o kc dotNops commitId file desired gvk hdec]
  unfold applyFileDecoded
  simp [hkind, hkm, hns, hget, honly, hlbl]

/-- C1: when the live object is present and its file-identity annotation
equals the file's content id, `applyFile` returns success and issues no
create or update call; any `applyFile` run issues at most one mutation
call; and a second apply of the same content against the object written
by the first apply (the mutated desired document, whatever
resourceVersion the store gave it) is again a success with no mutation
call — so applying the same file content twice yields at most one
mutation in total. -/
theorem applyFile_idempotent_skip (o : Operator) (kc : KubeClient) (dotNops : DotNops)
    (commitId : String) (file : File) (desired : Unstructured) (gvk : GVK)
    (actual : Unstructured)
    (hdec : file.decoded = .ok (desired, gvk))
    (hkind : o.kinds.contains gvk.kind = true)
    (hns : desired.ns = dotNops.ns)
    (hget : kc.getRes gvk dotNops.ns desired.name = .ok actual)
    (hid : lookupD actual.annotations fileIdAnno = file.id) :
    ((applyFile o kc dotNops commitId file).1 = .ok () ∧
     mutationCalls (applyFile o kc dotNops commitId file).2 = []) ∧
    (∀ kc' : KubeClient,
       (mutationCalls (applyFile o kc' dotNops commitId file).2).length ≤ 1) ∧
    (∀ (kc' : KubeClient) (rv : String),
       kc'.getRes gvk dotNops.ns desired.name =
         .ok { mutateDesired dotNops commitId file.id desired with resourceVersion := rv } →
       (applyFile o kc' dotNops commitId file).1 = .ok () ∧
       mutationCalls (applyFile o kc' dotNops commitId file).2 = []) := by
  refine ⟨?_, fun kc' => applyFile_mutation_le_one o kc' dotNops commitId file, ?_⟩
  · have hkm : gvk.kind ∈ o.kinds := by simpa using hkind
    rw [applyFile_decode_ok o kc dotNops commitId file desired gvk hdec]
    unfold applyFileDecoded
    by_cases hom : o.onlyManaged = true ∧ lookupD actual.labels managedByLabel ≠ operatorName
    · simp [hkind, hkm, hns, hget, hom, mutationCalls, isMutation, List.filter]
    · simp [hkind, hkm, hns, hget, hom, hid, mutationCalls, isMutation, List.filter]
  · intro kc' rv hget'
    have hkm : gvk.kind ∈ o.kinds := by simpa using hkind
    rw [applyFile_decode_ok o kc' dotNops commitId file desired gvk hdec]
    unfold applyFileDecoded
    have hl : lookupD { mutateDesired dotNops commitId file.id desired with
        resourceVersion := rv : Unstructured }.labels managedByLabel = operatorName :=
      mutateDesired_managedBy dotNops commitId file.id desired
    have ha : lookupD { mutateDesired dotNops commitId file.id desired with
        resourceVersion := rv : Unstructured }.annotations fileIdAnno = file.id :=
      mutateDesired_fileAnno dotNops commitId file.id desired
    simp [hkind, hkm, hns, hget', hl, ha, mutationCalls, isMutation, List.filter]

/-- C4: for a file passing the decode, kind and namespace checks: if the
store reports the target absent (a not-found get error) and creation is
enabled, the trace has exactly one create call of the mutated document;
if absent and creation is disabled, `applyFile` returns the store's
not-found error with no mutation; if present and not skipped by the
ownership or idempotency checks, the trace has exactly one update call
whose document carries the live object's resourceVersion unchanged. -/
theorem applyFile_create_update_branching (o : Operator) (kc : KubeClient) (dotNops : DotNops)
    (commitId : String) (file : File) (desired : Unstructured) (gvk : GVK)
    (hdec : file.decoded = .ok (desired, gvk))
    (hkind : o.kinds.contains gvk.kind = true)
    (hns : desired.ns = dotNops.ns) :
    (∀ e, kc.getRes gvk dotNops.ns desired.name = .error e → e.isNotFound = true →
       o.allowCreate = true →
       mutationCalls (applyFile o kc dotNops commitId file).2 =
         [.create (mutateDesired dotNops commitId file.id desired)]) ∧
    (∀ e, kc.getRes gvk dotNops.ns desired.name = .error e → e.isNotFound = true →
       o.allowCreate = false →
       (applyFile o kc dotNops commitId file).1 = .error (.storeErr e) ∧
       mutationCalls (applyFile o kc dotNops commitId file).2 = []) ∧
    (∀ actual, kc.getRes gvk dotNops.ns desired.name = .ok actual →
       ¬(o.onlyManaged = true ∧ lookupD actual.labels managedByLabel ≠ operatorName) →
       lookupD actual.annotations fileIdAnno ≠ file.id →
       mutationCalls (applyFile o kc dotNops commitId file).2 =
         [.update { mutateDesired dotNops commitId file.id desired with
                    resourceVersion := actual.resourceVersion }]) := by
  refine ⟨?_, ?_, ?_⟩
  · intro e hget hnf hac
    have hkm : gvk.kind ∈ o.kinds := by simpa using hkind
    rw [applyFile_decode_ok o kc dotNops commitId file desired gvk hdec]
    unfold applyFileDecoded
    rcases hc : kc.createRes (mutateDesired dotNops commitId file.id desired) with ce | a <;>
      simp [hkind, hkm, hns, hget, hnf, hac, hc, mutationCalls, isMutation, List.filter]
  · intro e hget hnf hac
    have hkm : gvk.kind ∈ o.kinds := by simpa using hkind
    rw [applyFile_decode_ok o kc dotNops commitId file desired gvk hdec]
    unfold applyFileDecoded
    simp [hkind, hkm, hns, hget, hnf, hac, mutationCalls, isMutation, List.filter]
  · intro actual hget hown hidne
    have hkm : gvk.kind ∈ o.kinds := by simpa using hkind
    rw [applyFile_decode_ok o kc dotNops commitId file desired gvk hdec]
    unfold applyFileDecoded
    rcases hu : kc.updateRes { mutateDesired dotNops commitId file.id desired with
        resourceVersion := actual.resourceVersion } with ue | a <;>
      simp [hkind, hkm, hns, hget, hown, hidne, hu, mutationCalls, isMutation, List.filter]

/-- C7: every document `applyFile` passes to a create or update call has
labels equal to the decoded document's labels overridden by the policy
labels (policy wins on conflict), ownership label set to "knops",
commit-id annotation set to the commit identifier, file-id annotation
set to the file's content id, and every other label and annotation
preserved from the decoded document. -/
theorem applyFile_sets_metadata (o : Operator) (kc : KubeClient) (dotNops : DotNops)
    (commitId : String) (file : File) (desired : Unstructured) (gvk : GVK)
    (hdec : file.decoded = .ok (desired, gvk))
    (hnd : (dotNops.labels.map Prod.fst).Nodup) :
    ∀ obj, (StoreCall.create obj ∈ (applyFile o kc dotNops commitId file).2 ∨
            StoreCall.update obj ∈ (applyFile o kc dotNops commitId file).2) →
      lookupD obj.labels managedByLabel = operatorName ∧
      (∀ k v, (k, v) ∈ dotNops.labels → k ≠ managedByLabel → lookupD obj.labels k = v) ∧
      (∀ k, k ≠ managedByLabel → k ∉ dotNops.labels.map Prod.fst →
         lookupD obj.labels k = lookupD desired.labels k) ∧
      lookupD obj.annotations commitIdAnno = commitId ∧
      lookupD obj.annotations fileIdAnno = file.id ∧
      (∀ k, k ≠ commitIdAnno → k ≠ fileIdAnno →
         lookupD obj.annotations k = lookupD desired.annotations k) := by
  intro obj hobj
  have hobj' : obj.labels = (mutateDesired dotNops commitId file.id desired).labels ∧
      obj.annotations = (mutateDesired dotNops commitId file.id desired).annotations := by
    have hpay := applyFile_mutation_payload o kc dotNops commitId file desired gvk hdec
    rcases hobj with h | h
    · rcases hpay _ h rfl with h1 | ⟨rv, h1⟩
      · have : obj = mutateDesired dotNops commitId file.id desired :=
          StoreCall.create.inj h1
        rw [this]
        exact ⟨rfl, rfl⟩
      · simp at h1
    · rcases hpay _ h rfl with h1 | ⟨rv, h1⟩
      · simp at h1
      · have : obj = { mutateDesired dotNops commitId file.id desired with
            resourceVersion := rv } :=
          StoreCall.update.inj h1
        rw [this]
        exact ⟨rfl, rfl⟩
  refine ⟨?_, ?_, ?_, ?_, ?_, ?_⟩
  · rw [hobj'.1]
    exact mutateDesired_managedBy dotNops commitId file.id desired
  · intro k v hkv hkm
    rw [hobj'.1]
    exact mutateDesired_policyLabel dotNops commitId file.id desired k v hnd hkv hkm
  · intro k hkm hknot
    rw [hobj'.1]
    exact mutateDesired_otherLabel dotNops commitId file.id desired k hkm hknot
  · rw [hobj'.2]
    exact mutateDesired_commitAnno dotNops commitId file.id desired
  · rw [hobj'.2]
    exact mutateDesired_fileAnno dotNops commitId file.id desired
  · intro k h1 h2
    rw [hobj'.2]
    exact mutateDesired_otherAnno dotNops commitId file.id desired k h1 h2

/-! ## Witnesses for the `applyFile` claim theorems -/

/-- Witness for C6's theorem: a file decoding to kind `Secret`, which is
outside the allow-list, fails with the unsupported-kind error and an
empty store trace. -/
theorem applyFile_strict_check_order_witness :
    applyFile opW kcAbsentW dnW "c0" badKindFileW =
      (.error (.unsupportedKind "Secret"), []) :=
  (applyFile_strict_check_order opW kcAbsentW dnW "c0" badKindFileW).2.1
    desiredW gvkSecretW rfl (by decide)

/-- Witness for C3's theorem: a live object managed by `helm` is skipped
silently under only-managed mode. -/
theorem applyFile_ownership_isolation_witness :
    applyFile opW kcForeignW dnW "c3" fileW =
      (.ok (), [.get gvkW dnW.ns desiredW.name]) :=
  applyFile_ownership_isolation opW kcForeignW dnW "c3" fileW desiredW gvkW
    actualForeignW rfl (by decide) rfl rfl rfl (by decide)

/-- Witness for C1's theorem: a live object whose file-id annotation
matches the file's content id yields success with no mutation call. -/
theorem applyFile_idempotent_skip_witness :
    (applyFile opW kcSameW dnW "c1" fileW).1 = .ok () ∧
    mutationCalls (applyFile opW kcSameW dnW "c1" fileW).2 = [] :=
  (applyFile_idempotent_skip opW kcSameW dnW "c1" fileW desiredW gvkW
    actualManagedW rfl (by decide) rfl rfl (by decide)).1

/-- Witness for C4's theorem: against an absent target with creation
enabled the trace has exactly one create; with creation disabled the
not-found error surfaces with no mutation; against a stale live object
the trace has exactly one update carrying the live resourceVersion. -/
theorem applyFile_create_update_branching_witness :
    mutationCalls (applyFile opW kcAbsentW dnW "c4" fileW).2 =
      [.create (mutateDesired dnW "c4" fileW.id desiredW)] ∧
    ((applyFile opNoCreateW kcAbsentW dnW "c4" fileW).1 =
       .error (.storeErr { isNotFound := true, msg := "nf" }) ∧
     mutationCalls (applyFile opNoCreateW kcAbsentW dnW "c4" fileW).2 = []) ∧
    mutationCalls (applyFile opW kcStaleW dnW "c4" fileW).2 =
      [.update { mutateDesired dnW "c4" fileW.id desiredW with
                 resourceVersion := actualStaleW.resourceVersion }] :=
  ⟨(applyFile_create_update_branching opW kcAbsentW dnW "c4" fileW desiredW gvkW
      rfl (by decide) rfl).1 { isNotFound := true, msg := "nf" } rfl rfl rfl,
   (applyFile_create_update_branching opNoCreateW kcAbsentW dnW "c4" fileW desiredW gvkW
      rfl (by decide) rfl).2.1 { isNotFound := true, msg := "nf" } rfl rfl rfl,
   (applyFile_create_update_branching opW kcStaleW dnW "c4" fileW desiredW gvkW
      rfl (by decide) rfl).2.2 actualStaleW rfl (by decide) (by decide)⟩

/-- Witness for C7's theorem: the document created for a fresh target
carries the merged labels, the ownership label, and both annotation
keys, while preserving unrelated entries. -/
theorem applyFile_sets_metadata_witness :
    lookupD objW.labels managedByLabel = operatorName ∧
    lookupD objW.labels "team" = "alpha" ∧
    lookupD objW.labels "tier" = "web" ∧
    lookupD objW.annotations commitIdAnno = "c7" ∧
    lookupD objW.annotations fileIdAnno = "fid1" ∧
    lookupD objW.annotations "note" = "n1" := by
  have h := applyFile_sets_metadata opW kcAbsentW dnW "c7" fileW desiredW gvkW
    rfl (by decide) objW (Or.inl (by decide))
  exact ⟨h.1,
    h.2.1 "team" "alpha" (by decide) (by decide),
    (h.2.2.1 "tier" (by decide) (by decide)).trans (by decide),
    h.2.2.2.1, h.2.2.2.2.1,
    (h.2.2.2.2.2 "note" (by decide) (by decide)).trans (by decide)⟩

/-! ## Pass-level lemmas about `deployCommit`'s file loop -/

theorem deployFileStep_events_length (o : Operator) (kc : KubeClient) (dn : DotNops)
    (cid : String) (s : PassState) (f : File) :
    ((deployFileStep o kc dn cid s f).events).length = s.events.length + 1 := by
  unfold deployFileStep
  split
  · simp
  · split
    · split
      · simp
      · split <;> simp
    · split <;> simp

theorem passFold_events_length (o : Operator) (kc : KubeClient) (dn : DotNops)
    (cid : String) (files : List File) : ∀ s : PassState,
    ((files.foldl (deployFileStep o kc dn cid) s).events).length =
      s.events.length + files.length := by
  induction files with
  | nil => intro s; simp
  | cons f t ih =>
    intro s
    simp only [List.foldl_cons, List.length_cons, ih, deployFileStep_events_length]
    omega

theorem deployFileStep_mem_events (o : Operator) (kc : KubeClient) (dn : DotNops)
    (cid : String) (s : PassState) (f : File) (e : FileEvent) (h : e ∈ s.events) :
    e ∈ (deployFileStep o kc dn cid s f).events := by
  unfold deployFileStep
  split
  · simp [h]
  · split
    · split
      · simp [h]
      · split <;> simp [h]
    · split <;> simp [h]

theorem passFold_mem_events (o : Operator) (kc : KubeClient) (dn : DotNops)
    (cid : String) (files : List File) : ∀ (s : PassState) (e : FileEvent), e ∈ s.events →
    e ∈ (files.foldl (deployFileStep o kc dn cid) s).events := by
  induction files with
  | nil => intro s e h; simpa using h
  | cons f t ih =>
    intro s e h
    simp only [List.foldl_cons]
    exact ih _ _ (deployFileStep_mem_events o kc dn cid s f e h)

theorem deployFileStep_cache_none (o : Operator) (kc : KubeClient) (dn : DotNops)
    (cid : String) (s : PassState) (f : File) (h : s.cache = none) :
    (deployFileStep o kc dn cid s f).cache = none ∧
    ∀ n, FileEvent.cachedSkip n ∈ (deployFileStep o kc dn cid s f).events →
      FileEvent.cachedSkip n ∈ s.events := by
  unfold deployFileStep
  simp only [h]
  split
  · exact ⟨rfl, fun n hn => by simpa using hn⟩
  · split
    · exact ⟨rfl, fun n hn => by simpa using hn⟩
    · exact ⟨rfl, fun n hn => by simpa using hn⟩

theorem passFold_cache_none (o : Operator) (kc : KubeClient) (dn : DotNops)
    (cid : String) (files : List File) : ∀ s : PassState, s.cache = none →
    ((files.foldl (deployFileStep o kc dn cid) s).cache = none ∧
     ∀ n, FileEvent.cachedSkip n ∈ (files.foldl (deployFileStep o kc dn cid) s).events →
       FileEvent.cachedSkip n ∈ s.events) := by
  induction files with
  | nil => intro s h; exact ⟨h, fun n hn => hn⟩
  | cons f t ih =>
    intro s h
    simp only [List.foldl_cons]
    have hstep := deployFileStep_cache_none o kc dn cid s f h
    have hrest := ih (deployFileStep o kc dn cid s f) hstep.1
    exact ⟨hrest.1, fun n hn => hstep.2 n (hrest.2 n hn)⟩

theorem deployFileStep_cache_some (o : Operator) (kc : KubeClient) (dn : DotNops)
    (cid : String) (s : PassState) (f : File) (c : List (String × String))
    (h : s.cache = some c) :
    (deployFileStep o kc dn cid s f).cache = some c ∨
    ((deployFileStep o kc dn cid s f).cache = some (setKV c f.name f.id) ∧
     ∃ calls, FileEvent.applied f.name f.id calls ∈ (deployFileStep o kc dn cid s f).events) := by
  unfold deployFileStep
  simp only [h]
  split
  · exact Or.inl rfl
  · split
    · exact Or.inl rfl
    · split
      · exact Or.inl rfl
      · rename_i a calls heq
        exact Or.inr ⟨rfl, calls, by simp⟩

theorem passFold_cache_evolution (o : Operator) (kc : KubeClient) (dn : DotNops)
    (cid : String) (files : List File) :
    ∀ (s : PassState) (c : List (String × String)), s.cache = some c →
    ∃ c', (files.foldl (deployFileStep o kc dn cid) s).cache = some c' ∧
      ∀ p, lookupD c' p = lookupD c p ∨
        ∃ id calls, FileEvent.applied p id calls ∈
            (files.foldl (deployFileStep o kc dn cid) s).events ∧ lookupD c' p = id := by
  induction files with
  | nil => intro s c h; exact ⟨c, h, fun p => Or.inl rfl⟩
  | cons f t ih =>
    intro s c h
    simp only [List.foldl_cons]
    rcases deployFileStep_cache_some o kc dn cid s f c h with h1 | ⟨h1, calls, hev⟩
    · exact ih _ _ h1
    · rcases ih _ _ h1 with ⟨c', hc', hp⟩
      refine ⟨c', hc', fun p => ?_⟩
      rcases hp p with hsame | hap
      · by_cases hpf : p = f.name
        · subst hpf
          refine Or.inr ⟨f.id, calls, passFold_mem_events o kc dn cid t _ _ hev, ?_⟩
          rw [hsame]
          exact lookupD_setKV_self c f.name f.id
        · refine Or.inl ?_
          rw [hsame]
          exact lookupD_setKV_ne c f.name f.id p hpf
      · exact Or.inr hap

theorem deployFileStep_cache_hit (o : Operator) (kc : KubeClient) (dn : DotNops)
    (cid : String) (s : PassState) (f : File) (c : List (String × String))
    (h : s.cache = some c) (hsel : selectFile f = true) (hhit : lookupD c f.name = f.id) :
    deployFileStep o kc dn cid s f = { s with events := s.events ++ [.cachedSkip f.name] } := by
  unfold deployFileStep
  simp [h, hsel, hhit]

theorem deployFileStep_failed (o : Operator) (kc : KubeClient) (dn : DotNops)
    (cid : String) (s : PassState) (f : File) (e : ApplyErr) (calls : List StoreCall)
    (hsel : selectFile f = true) (hnone : s.cache = none)
    (happ : applyFile o kc dn cid f = (.error e, calls)) :
    deployFileStep o kc dn cid s f =
      { s with events := s.events ++ [.failed f.name e calls] } := by
  unfold deployFileStep
  simp [hsel, hnone, happ]

/-! ## Claim theorems about `deployCommit` -/

/-- C5: `deployCommit` returns an error exactly when reading the tree
fails, loading or decoding the `.nops.yaml` policy fails, or a non-empty
namespace allow-list does not contain the policy's target namespace.
When those checks pass the pass returns success and records one event
per file of the tree — per-file failures never abort the loop — and a
per-file `applyFile` error is recorded as a failed event while the pass
state is otherwise unchanged. -/
theorem deployCommit_error_policy (o : Operator) (kc : KubeClient)
    (cache0 : Option (List (String × String))) (commit : Commit) :
    ((∃ e, (deployCommit o kc cache0 commit).1 = .error e) ↔
       (∃ m, commit.tree = .error m) ∨
       (∃ tree m, commit.tree = .ok tree ∧ tree.dotNops = .error m) ∨
       (∃ tree dn, commit.tree = .ok tree ∧ tree.dotNops = .ok dn ∧
          o.namespaces ≠ [] ∧ o.namespaces.contains dn.ns = false)) ∧
    (∀ tree dn, commit.tree = .ok tree → tree.dotNops = .ok dn →
       ¬(o.namespaces ≠ [] ∧ o.namespaces.contains dn.ns = false) →
       (deployCommit o kc cache0 commit).1 = .ok () ∧
       (deployCommit o kc cache0 commit).2.events.length = tree.files.length) ∧
    (∀ (dn : DotNops) (cid : String) (s : PassState) (f : File) (e : ApplyErr)
       (calls : List StoreCall), selectFile f = true → s.cache = none →
       applyFile o kc dn cid f = (.error e, calls) →
       deployFileStep o kc dn cid s f =
         { s with events := s.events ++ [.failed f.name e calls] }) := by
  refine ⟨?_, ?_, deployFileStep_failed o kc⟩
  · rcases ht : commit.tree with m | tree
    · simp [deployCommit, ht]
    · rcases hd : tree.dotNops with m | dn
      · simp [deployCommit, ht, hd]
      · by_cases hns : o.namespaces ≠ [] ∧ o.namespaces.contains dn.ns = false
        · have hne : o.namespaces ≠ [] := hns.1
          have hnm : dn.ns ∉ o.namespaces := by simpa using hns.2
          simp [deployCommit, ht, hd, hne, hnm]
        · rcases not_and_or.mp hns with h | h
          · have he : o.namespaces = [] := not_not.mp h
            simp [deployCommit, ht, hd, he]
          · have hm : dn.ns ∈ o.namespaces := by simpa using h
            simp [deployCommit, ht, hd, hm]
  · intro tree dn h1 h2 h3
    constructor
    · simp only [deployCommit, h1, h2]
      rw [if_neg h3]
    · have hlen := passFold_events_length o kc dn commit.id tree.files ⟨cache0, []⟩
      simp only [deployCommit, h1, h2]
      rw [if_neg h3]
      simpa using hlen

/-- C8: the idempotency cache of a pass. With the cache feature disabled
(`cacheIds = nil`, modelled as `none`) the pass ends with no cache and no
file is ever skipped by the cache check — every selected file is
evaluated. With the cache enabled, a selected file whose path already
maps to its content id is skipped by appending a cachedSkip event, a
branch that never invokes `applyFile` and records no store call. And the
final cache differs from the initial one at a path only by holding an id
for which a successful applied event of that path and id was recorded
this pass — entries change only after a successful apply, never on a
per-file error. -/
theorem deployCommit_cache_invariants (o : Operator) (kc : KubeClient) (commit : Commit)
    (tree : Tree) (dn : DotNops)
    (h1 : commit.tree = .ok tree) (h2 : tree.dotNops = .ok dn)
    (h3 : ¬(o.namespaces ≠ [] ∧ o.namespaces.contains dn.ns = false)) :
    ((deployCommit o kc none commit).2.cache = none ∧
     ∀ n, FileEvent.cachedSkip n ∉ (deployCommit o kc none commit).2.events) ∧
    (∀ (s : PassState) (c : List (String × String)) (f : File), s.cache = some c →
       selectFile f = true → lookupD c f.name = f.id →
       deployFileStep o kc dn commit.id s f =
         { s with events := s.events ++ [.cachedSkip f.name] }) ∧
    (∀ c0 : List (String × String), ∃ c',
       (deployCommit o kc (some c0) commit).2.cache = some c' ∧
       ∀ p, lookupD c' p = lookupD c0 p ∨
         ∃ id calls, FileEvent.applied p id calls ∈
             (deployCommit o kc (some c0) commit).2.events ∧ lookupD c' p = id) := by
  have hred : ∀ cache0, deployCommit o kc cache0 commit =
      (.ok (), tree.files.foldl (deployFileStep o kc dn commit.id) ⟨cache0, []⟩) := by
    intro cache0
    simp only [deployCommit, h1, h2]
    rw [if_neg h3]
  refine ⟨?_, ?_, ?_⟩
  · rw [hred none]
    have hinv := passFold_cache_none o kc dn commit.id tree.files ⟨none, []⟩ rfl
    exact ⟨hinv.1, fun n hn => absurd (hinv.2 n hn) (List.not_mem_nil _)⟩
  · exact fun s c f hc hsel hhit =>
      deployFileStep_cache_hit o kc dn commit.id s f c hc hsel hhit
  · intro c0
    rw [hred (some c0)]
    exact passFold_cache_evolution o kc dn commit.id tree.files ⟨some c0, []⟩ c0 rfl

/-- Witness for C5's theorem: the concrete two-file commit succeeds with
one event per file, and a commit whose tree cannot be read fails. -/
theorem deployCommit_error_policy_witness :
    ((deployCommit opW kcSameW none commitW).1 = .ok () ∧
     (deployCommit opW kcSameW none commitW).2.events.length = 2) ∧
    (∃ e, (deployCommit opW kcSameW none badCommitW).1 = .error e) :=
  ⟨(deployCommit_error_policy opW kcSameW none commitW).2.1 treeW dnW rfl rfl
     (by decide),
   ((deployCommit_error_policy opW kcSameW none badCommitW).1).mpr
     (Or.inl ⟨"tree unreadable", rfl⟩)⟩

/-- Witness for C8's theorem: with the cache disabled the concrete pass
ends with no cache, and a cache already holding the file's content id
makes the step a pure cachedSkip. -/
theorem deployCommit_cache_invariants_witness :
    (deployCommit opW kcSameW none commitW).2.cache = none ∧
    deployFileStep opW kcSameW dnW commitW.id
        { cache := some [("app1.yaml", "fid1")], events := [] } fileW =
      { cache := some [("app1.yaml", "fid1")], events := [.cachedSkip "app1.yaml"] } :=
  ⟨(deployCommit_cache_invariants opW kcSameW commitW treeW dnW rfl rfl (by decide)).1.1,
   (deployCommit_cache_invariants opW kcSameW commitW treeW dnW rfl rfl (by decide)).2.1
     { cache := some [("app1.yaml", "fid1")], events := [] } [("app1.yaml", "fid1")]
     fileW rfl (by decide) (by decide)⟩

/-! ## Claim theorems about the deploy-job queue worker -/

theorem runWorker_bounds (t i : Nat) (jobs : List Job) :
    ∀ e ∈ runWorker t i jobs, t ≤ e.start ∧ i ≤ e.jobIndex := by
  induction jobs generalizing t i with
  | nil => intro e he; simp [runWorker] at he
  | cons job rest ih =>
    intro e he
    simp only [runWorker] at he
    split at he
    · have := ih t (i + 1) e he
      omega
    · rcases List.mem_cons.mp he with h | h
      · subst h
        exact ⟨Nat.le_refl _, Nat.le_refl _⟩
      · have := ih (t + job.dur) (i + 1) e h
        omega

/-- C9: the single worker consumes the queued jobs one at a time in
submission order, so the executed reconciliation passes are ordered by
queue position and their execution intervals never overlap: for any two
passes, the earlier-submitted one finishes before the later one starts. -/
theorem worker_serializes_passes (t i : Nat) (jobs : List Job) :
    List.Pairwise (fun a b => a.jobIndex < b.jobIndex ∧ a.finish ≤ b.start)
      (runWorker t i jobs) := by
  induction jobs generalizing t i with
  | nil => simp [runWorker]
  | cons job rest ih =>
    simp only [runWorker]
    split
    · exact ih t (i + 1)
    · refine List.Pairwise.cons ?_ (ih (t + job.dur) (i + 1))
      intro b hb
      have := runWorker_bounds (t + job.dur) (i + 1) rest b hb
      exact ⟨this.2, this.1⟩

/-- C10: an asynchronous trigger enqueues a job with a background
(never cancelled) context and no result channel, so whatever the
dequeue time, the worker's cancelled-at-dequeue discard branch never
fires for it: the job always runs a pass and delivers no result, and in
a queue it always produces an execution. -/
theorem async_job_always_runs (d t0 : Nat) :
    ctxDoneAt (asyncJob d).cancelAt t0 = false ∧
    workerStep (asyncJob d) t0 = .ran false ∧
    ∀ (t i : Nat) (rest : List Job),
      runWorker t i (asyncJob d :: rest) =
        ⟨i, t, t + d⟩ :: runWorker (t + d) (i + 1) rest :=
  ⟨rfl, rfl, fun t i rest => by simp [runWorker, ctxDoneAt, asyncJob]⟩

/-- C2 fails on the code: first, a job whose submitter context is
cancelled after enqueue but before dequeue is discarded by the worker's
select on `job.ctx.Done()` — it does not run and no result is
delivered, here a job cancelled at time 0 and dequeued at time 1; and
second, the working context is `context.WithTimeout(job.ctx, ...)`,
derived from the submitter's context, so submitter cancellation does
stop it: cancelled at time 5, the working context of a pass started at
time 0 is already done at time 6, far below the 180-second ceiling. -/
theorem submitter_cancellation_counterexample :
    workerStep { cancelAt := some 0, hasRes := true, dur := 5 } 1 = .discarded ∧
    runWorker 1 0 [{ cancelAt := some 0, hasRes := true, dur := 5 }] = [] ∧
    workingCtxDone { cancelAt := some 5, hasRes := true, dur := 100 } 0 6 = true ∧
    6 < deployTimeout := by
  refine ⟨rfl, ?_, rfl, by decide⟩
  simp [runWorker, ctxDoneAt]

/-- C2 amended: cancellation after enqueue but before dequeue does
remove the job — the worker discards it, running no pass and delivering
no result. A job not yet cancelled at dequeue runs, and its result is
delivered iff a result channel was supplied. The working pass is
bounded by the ceiling timeout but is also stopped by submitter
cancellation, since the working context is derived from the job's
context: it is done exactly when the submitter's context is done or the
ceiling has elapsed since dequeue. -/
theorem worker_cancellation_behavior (job : Job) (t0 t : Nat) :
    (ctxDoneAt job.cancelAt t0 = true → workerStep job t0 = .discarded) ∧
    (ctxDoneAt job.cancelAt t0 = false → workerStep job t0 = .ran job.hasRes) ∧
    (workingCtxDone job t0 t = true ↔
       ctxDoneAt job.cancelAt t = true ∨ t0 + deployTimeout ≤ t) := by
  refine ⟨?_, ?_, ?_⟩
  · intro h
    simp [workerStep, h]
  · intro h
    simp [workerStep, h]
  · simp [workingCtxDone]

/-- Witness for the amended C2 theorem: a job cancelled at time 10 is
not yet cancelled at dequeue time 0, so it runs with result delivery,
and its working context is done at time 12 (after cancellation, before
the ceiling). -/
theorem worker_cancellation_behavior_witness :
    workerStep { cancelAt := some 10, hasRes := true, dur := 3 } 0 = .ran true ∧
    workingCtxDone { cancelAt := some 10, hasRes := true, dur := 3 } 0 12 = true ∧
    12 < deployTimeout :=
  ⟨(worker_cancellation_behavior { cancelAt := some 10, hasRes := true, dur := 3 } 0 12).2.1
     (by decide),
   (worker_cancellation_behavior { cancelAt := some 10, hasRes := true, dur := 3 } 0 12).2.2.mpr
     (Or.inl (by decide)),
   by decide⟩

end Knops
